import Mathlib

/-!
Shallow embedding of the StarkNet contract-hash engine
(`crates/pathfinder/src/state/contract_hash.rs`) and proofs about it.

Machine integers and field elements are modelled as `Nat`; the Pedersen
hash and the Keccak-256 digest are external primitives and appear as
explicit function parameters, exactly as the specification treats them
(an opaque pair `(field_element_type, binary_pedersen)` plus a digest).
-/

namespace ContractHash

/-- A field element: an integer in `[0, PRIME)`; modelled as `Nat` with
explicit range checks in the fallible constructors. -/
abbrev Felt := Nat

/-- The StarkNet base-field prime `p = 2^251 + 17 * 2^192 + 1`. -/
def PRIME : Nat := 2 ^ 251 + 17 * 2 ^ 192 + 1

/-! ## JSON values (serde_json::Value with arbitrary_precision) -/

/-- A JSON value as `serde_json::Value` holds it with `preserve_order`
disabled (object entries kept sorted by key) and `arbitrary_precision`
enabled (numbers kept as their original text, `num`). -/
inductive Json where
  | null
  | bool (b : Bool)
  | num (text : String)
  | str (s : String)
  | arr (elems : List Json)
  | obj (entries : List (String × Json))

/-- One hexadecimal nibble as a lowercase character (for JSON escapes). -/
def hexNibble (n : Nat) : Char :=
  if n < 10 then Char.ofNat (48 + n) else Char.ofNat (87 + n)

/-- serde_json escaping of a single character: quote and backslash are
escaped, control characters use the two-character shortcuts or a
pseudo-unicode escape, everything else (non-ASCII included) is passed
through verbatim. -/
def escapeChar (c : Char) : String :=
  if c = '"' then "\\\""
  else if c = '\\' then "\\\\"
  else if c.toNat = 8 then "\\b"
  else if c.toNat = 9 then "\\t"
  else if c.toNat = 10 then "\\n"
  else if c.toNat = 12 then "\\f"
  else if c.toNat = 13 then "\\r"
  else if c.toNat < 32 then
    "\\u00" ++ String.mk [hexNibble (c.toNat / 16), hexNibble (c.toNat % 16)]
  else String.mk [c]

/-- A JSON string literal: quotes around the escaped characters. -/
def serString (s : String) : String :=
  "\"" ++ String.join (s.data.map escapeChar) ++ "\""

mutual

/-- Serialize a JSON value.  `comma` and `colon` are the element and the
key/value separators of the active `serde_json::ser::Formatter`: the
default compact formatter uses `","` and `":"`, the repository's
`PythonDefaultFormatter` overrides them to `", "` and `": "`. -/
def serJson (comma colon : String) : Json → String
  | .null => "null"
  | .bool true => "true"
  | .bool false => "false"
  | .num text => text
  | .str s => serString s
  | .arr elems => "[" ++ serJsonList comma colon elems ++ "]"
  | .obj entries => "\x7b" ++ serJsonObj comma colon entries ++ "\x7d"

/-- Array elements joined by the element separator. -/
def serJsonList (comma colon : String) : List Json → String
  | [] => ""
  | [x] => serJson comma colon x
  | x :: y :: rest => serJson comma colon x ++ comma ++ serJsonList comma colon (y :: rest)

/-- Object entries (already in sorted order, as serde_json's BTreeMap
yields them) joined by the element separator. -/
def serJsonObj (comma colon : String) : List (String × Json) → String
  | [] => ""
  | [kv] => serString kv.1 ++ colon ++ serJson comma colon kv.2
  | kv :: kv2 :: rest =>
      serString kv.1 ++ colon ++ serJson comma colon kv.2 ++ comma ++
        serJsonObj comma colon (kv2 :: rest)

end

/-! ## External field-element constructors (pedersen crate) -/

/-- The big-endian integer value of a byte sequence. -/
def beValue (bytes : List Nat) : Nat :=
  bytes.foldl (fun acc b => acc * 256 + b) 0

/-- Modelled from the spec: `StarkHash::from_be_bytes` lives in the
pedersen crate, outside the sources given here; per the spec it is the
field-element constructor "from big-endian bytes (32 bytes, must be
`< p`)". -/
def from_be_bytes (bytes : List Nat) : Option Felt :=
  if beValue bytes < PRIME then some (beValue bytes) else none

/-- Modelled from the spec: `StarkHash::from_be_slice`, the same
big-endian embedding for a slice of at most 32 bytes. -/
def from_be_slice (bytes : List Nat) : Option Felt :=
  from_be_bytes bytes

/-- The value of one hexadecimal digit, upper or lower case. -/
def hexDigitVal (c : Char) : Option Nat :=
  if 48 ≤ c.toNat ∧ c.toNat ≤ 57 then some (c.toNat - 48)
  else if 97 ≤ c.toNat ∧ c.toNat ≤ 102 then some (c.toNat - 87)
  else if 65 ≤ c.toNat ∧ c.toNat ≤ 70 then some (c.toNat - 55)
  else none

/-- The value of a hexadecimal digit string, `none` on any non-digit. -/
def hexValue (s : List Char) : Option Nat :=
  s.foldl (fun acc c =>
    match acc, hexDigitVal c with
    | some a, some d => some (a * 16 + d)
    | _, _ => none) (some 0)

/-- `str::strip_prefix("0x")`: the rest of the string after a leading
`0x`, or `none` when the string does not start with `0x`. -/
def strip0x (s : String) : Option String :=
  match s.data with
  | '0' :: 'x' :: rest => some (String.mk rest)
  | _ => none

/-- Modelled from the spec: `StarkHash::from_hex_str` lives in the
pedersen crate, outside the sources given here; per the spec it is the
field-element constructor "from hex string (with or without `0x`
prefix)", failing on a non-hex character or a value outside the field. -/
def from_hex_str (s : String) : Option Felt :=
  let digits :=
    match strip0x s with
    | some rest => rest.data
    | none => s.data
  match hexValue digits with
  | some v => if v < PRIME then some v else none
  | none => none

/-! ## HashChain -/

/-- The hash-chain state: the pedersen accumulator and the number of
values folded in so far. -/
structure HashChain where
  hash : Felt
  count : Nat
deriving DecidableEq

/-- `HashChain::default()`: zero accumulator, zero count. -/
def HashChain.empty : HashChain := ⟨0, 0⟩

/-- `HashChain::update`: replace the accumulator with
`pedersen(hash, value)` and increment the count. -/
def HashChain.update (ped : Felt → Felt → Felt) (hc : HashChain) (value : Felt) : HashChain :=
  ⟨ped hc.hash value, hc.count + 1⟩

/-- `usize::to_be_bytes`: the eight big-endian bytes of a 64-bit word. -/
def usizeBeBytes (n : Nat) : List Nat :=
  (List.range 8).map (fun i => n / 256 ^ (7 - i) % 256)

/-- `HashChain::finalize`: `pedersen(hash, count)` with the count
embedded through its big-endian bytes.  The `none` branch models the
`expect` panic, unreachable because a usize is below `2^64 < PRIME`. -/
def HashChain.finalize (ped : Felt → Felt → Felt) (hc : HashChain) : Felt :=
  match from_be_slice (usizeBeBytes hc.count) with
  | some countFelt => ped hc.hash countFelt
  | none => 0

/-! ## Truncated Keccak -/

/-- Mask the most significant byte with `0x03` (`plain[0] &= 0x03`). -/
def maskFirst (plain : List Nat) : List Nat :=
  match plain with
  | [] => []
  | b :: rest => (b &&& 0x03) :: rest

/-- `truncated_keccak`: mask the top byte of the 32-byte digest and embed
it big-endian into the field.  The `none` branch models the `expect`
panic, which C4 proves unreachable. -/
def truncated_keccak (plain : List Nat) : Felt :=
  match from_be_bytes (maskFirst plain) with
  | some v => v
  | none => 0

/-! ## The contract-definition data model (`mod json`) -/

/-- One entry point: a pair of hex strings kept verbatim for late
parsing. -/
structure SelectorAndOffset where
  selector : String
  offset : String

/-- The three entry-point kinds. -/
inductive EntryPointType where
  | External
  | L1Handler
  | Constructor
deriving DecidableEq

/-- The `Display` impl used in error messages. -/
def EntryPointType.display : EntryPointType → String
  | .External => "EXTERNAL"
  | .L1Handler => "L1_HANDLER"
  | .Constructor => "CONSTRUCTOR"

/-- `Program`, fields in the declared (alphabetical) order.  `hints` is a
`BTreeMap<u64, Vec<Value>>`, held here as its sorted entry list;
`debug_info` is a borrowed `RawValue` held as its raw text. -/
structure Program where
  attributes : List Json
  builtins : List String
  data : List String
  debug_info : Option String
  hints : List (Nat × List Json)
  identifiers : Json
  main_scope : String
  prime : String
  reference_manager : Json

/-- `ContractDefinition`.  `entry_points_by_type` is a
`HashMap<EntryPointType, Vec<SelectorAndOffset>>`, modelled by its
lookup function (`HashMap::get`). -/
structure ContractDefinition where
  abi : Json
  program : Program
  entry_points_by_type : EntryPointType → Option (List SelectorAndOffset)

/-! ## Serialization of the document (serde derive + formatter) -/

/-- A JSON array of plain strings (`Vec<Cow<str>>`). -/
def serStringList (comma : String) (xs : List String) : String :=
  "[" ++ String.intercalate comma (xs.map serString) ++ "]"

/-- The `hints` map: entries in the order the `BTreeMap` yields them,
each `u64` key rendered as a quoted decimal string. -/
def serHints (comma colon : String) (hints : List (Nat × List Json)) : String :=
  "\x7b" ++ String.intercalate comma
    (hints.map (fun kv =>
      serString (toString kv.1) ++ colon ++ serJson comma colon (.arr kv.2))) ++ "\x7d"

/-- The `Program` entries after `attributes`: every remaining field in
declared order, `debug_info` rendered as `null` when `None` and as its
raw text otherwise. -/
def programEntriesTail (comma colon : String) (p : Program) : List String :=
  [ serString "builtins" ++ colon ++ serStringList comma p.builtins
  , serString "data" ++ colon ++ serStringList comma p.data
  , serString "debug_info" ++ colon ++
      (match p.debug_info with
       | none => "null"
       | some raw => raw)
  , serString "hints" ++ colon ++ serHints comma colon p.hints
  , serString "identifiers" ++ colon ++ serJson comma colon p.identifiers
  , serString "main_scope" ++ colon ++ serString p.main_scope
  , serString "prime" ++ colon ++ serString p.prime
  , serString "reference_manager" ++ colon ++ serJson comma colon p.reference_manager ]

/-- All `Program` entries: `attributes` first, but skipped entirely when
the list is empty (`skip_serializing_if = "Vec::is_empty"`). -/
def programEntries (comma colon : String) (p : Program) : List String :=
  (if p.attributes.isEmpty then []
   else [serString "attributes" ++ colon ++ serJson comma colon (.arr p.attributes)]) ++
  programEntriesTail comma colon p

/-- The serialized `Program` object. -/
def serProgram (comma colon : String) (p : Program) : String :=
  "\x7b" ++ String.intercalate comma (programEntries comma colon p) ++ "\x7d"

/-- The serialized `ContractDefinition`: `abi` and `program` in declared
order, `entry_points_by_type` skipped (`skip_serializing`). -/
def serContractDefinition (comma colon : String) (cd : ContractDefinition) : String :=
  "\x7b" ++ serString "abi" ++ colon ++ serJson comma colon cd.abi ++ comma ++
    serString "program" ++ colon ++ serProgram comma colon cd.program ++ "\x7d"

/-! ## compute_contract_hash0 -/

/-- UTF-8 bytes of one character (`str::as_bytes`). -/
def utf8Bytes (c : Char) : List Nat :=
  let n := c.toNat
  if n < 128 then [n]
  else if n < 2048 then [192 + n / 64, 128 + n % 64]
  else if n < 65536 then [224 + n / 4096, 128 + n / 64 % 64, 128 + n % 64]
  else [240 + n / 262144, 128 + n / 4096 % 64, 128 + n / 64 % 64, 128 + n % 64]

/-- UTF-8 bytes of a string (`str::as_bytes`). -/
def strBytes (s : String) : List Nat :=
  s.data.flatMap utf8Bytes

/-- The error text for a selector or offset without the `0x` prefix
(the quotes of the Rust message around 0x are elided). -/
def epMissingMsg (k : EntryPointType) (i : Nat) (field : String) : String :=
  "Entry point missing 0x prefix under " ++ k.display ++ " at index " ++
    toString i ++ " entry (" ++ field ++ ")"

/-- The error text for a selector or offset that fails hex decoding. -/
def epInvalidMsg (k : EntryPointType) (i : Nat) (field : String) : String :=
  "Entry point invalid hex under " ++ k.display ++ " at index " ++
    toString i ++ " entry (" ++ field ++ ")"

/-- Parse one selector or offset: strip the mandatory `0x`, then decode
the rest as a field element. -/
def parseEntryPointField (k : EntryPointType) (i : Nat) (field value : String) :
    Except String Felt :=
  match strip0x value with
  | some hexPart =>
      match from_hex_str hexPart with
      | some v => .ok v
      | none => .error (epInvalidMsg k i field)
  | none => .error (epMissingMsg k i field)

/-- The flattened `(index, field, text)` items of an entry-point list:
for the entry at index `i`, its selector then its offset. -/
def epItemsFrom (i : Nat) : List SelectorAndOffset → List (Nat × String × String)
  | [] => []
  | e :: rest =>
      (i, "selector", e.selector) :: (i, "offset", e.offset) :: epItemsFrom (i + 1) rest

/-- All flattened items of an entry-point list, indices from zero. -/
def epItems (eps : List SelectorAndOffset) : List (Nat × String × String) :=
  epItemsFrom 0 eps

/-- `try_fold` of parsed values into a hash chain: stop at the first
parse error, otherwise update the chain with each value in order. -/
def chainFold (ped : Felt → Felt → Felt) (f : α → Except String Felt)
    (init : HashChain) (l : List α) : Except String HashChain :=
  l.foldlM (fun hc x => (f x).map (fun v => hc.update ped v)) init

/-- The inner hash chain of one entry-point kind. -/
def epChain (ped : Felt → Felt → Felt) (k : EntryPointType)
    (eps : List SelectorAndOffset) : Except String HashChain :=
  chainFold ped (fun it => parseEntryPointField k it.1 it.2.1 it.2.2)
    HashChain.empty (epItems eps)

/-- The error text for a builtin string that does not embed in the
field. -/
def builtinMsg (i : Nat) : String :=
  "Invalid builtin at index " ++ toString i

/-- Parse one builtin: its UTF-8 bytes as a big-endian field element. -/
def parseBuiltin (i : Nat) (s : String) : Except String Felt :=
  match from_be_slice (strBytes s) with
  | some v => .ok v
  | none => .error (builtinMsg i)

/-- The builtins hash chain. -/
def builtinsChain (ped : Felt → Felt → Felt) (builtins : List String) :
    Except String HashChain :=
  chainFold ped (fun it => parseBuiltin it.1 it.2) HashChain.empty builtins.enum

/-- The error text for a bytecode word that fails hex decoding. -/
def bytecodeMsg (i : Nat) : String :=
  "Invalid bytecode at index " ++ toString i

/-- Parse one bytecode word with `from_hex_str` directly: no explicit
`0x`-prefix check, unlike the entry points. -/
def parseBytecode (i : Nat) (s : String) : Except String Felt :=
  match from_hex_str s with
  | some v => .ok v
  | none => .error (bytecodeMsg i)

/-- The bytecode hash chain. -/
def dataChain (ped : Felt → Felt → Felt) (data : List String) :
    Except String HashChain :=
  chainFold ped (fun it => parseBytecode it.1 it.2) HashChain.empty data.enum

/-- `anyhow::Context::context`: wrap an error with a context line. -/
def withContext (ctx : String) : Except String α → Except String α
  | .ok a => .ok a
  | .error e => .error (ctx ++ ": " ++ e)

/-- Context line of the entry-point phase. -/
def epContext : String :=
  "Failed to process contract_definition.entry_points_by_type"

/-- Context line of the builtins phase. -/
def builtinsContext : String :=
  "Failed to process contract_definition.program.builtins"

/-- Context line of the bytecode phase. -/
def dataContext : String :=
  "Failed to process contract_definition.program.data"

/-- The first modification of `compute_contract_hash0`:
`contract_definition.program.debug_info = None`. -/
def clearDebugInfo (cd : ContractDefinition) : ContractDefinition :=
  { cd with program := { cd.program with debug_info := none } }

/-- `entry_points_by_type.get(key).unwrap_or(&Vec::new())`. -/
def entryPointsOf (cd : ContractDefinition) (k : EntryPointType) :
    List SelectorAndOffset :=
  (cd.entry_points_by_type k).getD []

/-- The API-version constant, field element zero. -/
def API_VERSION : Felt := 0

/-- The outer hash chain of `compute_contract_hash0` in the state just
before its finalization.  `ped` is the external pedersen primitive and
`keccak` the external Keccak-256 digest of the serialized bytes.  The
`[External, L1Handler, Constructor]` iteration of the source is
unrolled into the three sequential steps, in the same order. -/
def outerChain (ped : Felt → Felt → Felt) (keccak : String → List Nat)
    (cd : ContractDefinition) : Except String HashChain := do
  let cd := clearDebugInfo cd
  let tk := truncated_keccak (keccak (serContractDefinition ", " ": " cd))
  let outer := HashChain.empty.update ped API_VERSION
  let ext ← withContext epContext (epChain ped .External (entryPointsOf cd .External))
  let l1h ← withContext epContext (epChain ped .L1Handler (entryPointsOf cd .L1Handler))
  let ctor ← withContext epContext (epChain ped .Constructor (entryPointsOf cd .Constructor))
  let outer := ((outer.update ped (ext.finalize ped)).update ped
      (l1h.finalize ped)).update ped (ctor.finalize ped)
  let bs ← withContext builtinsContext (builtinsChain ped cd.program.builtins)
  let outer := outer.update ped (bs.finalize ped)
  let outer := outer.update ped tk
  let ds ← withContext dataContext (dataChain ped cd.program.data)
  let outer := outer.update ped (ds.finalize ped)
  pure outer

/-- `compute_contract_hash0`: the finalized outer chain. -/
def computeContractHash0 (ped : Felt → Felt → Felt) (keccak : String → List Nat)
    (cd : ContractDefinition) : Except String Felt :=
  (outerChain ped keccak cd).map (fun outer => outer.finalize ped)

/-- `compute_contract_hash` on an already-parsed definition: the inner
computation under its `"Compute contract hash"` context. -/
def computeContractHash (ped : Felt → Felt → Felt) (keccak : String → List Nat)
    (cd : ContractDefinition) : Except String Felt :=
  withContext "Compute contract hash" (computeContractHash0 ped keccak cd)

/-- `extract_abi_code_hash` on an already-parsed definition: the ABI and
the bytecode reserialized with `serde_json::to_vec` (the default compact
formatter) before the hash is computed. -/
def extract_abi_code_hash (ped : Felt → Felt → Felt) (keccak : String → List Nat)
    (cd : ContractDefinition) : Except String (String × String × Felt) := do
  let abi := serJson "," ":" cd.abi
  let code := serStringList "," cd.program.data
  let h ← withContext "Compute contract hash" (computeContractHash0 ped keccak cd)
  pure (abi, code, h)

/-! ## The hints BTreeMap, derived inputs, and sample documents -/

/-- `BTreeMap::insert` on the sorted entry list: place the new entry at
its key position, replacing an existing entry with the same key. -/
def btInsert (m : List (Nat × α)) (kv : Nat × α) : List (Nat × α) :=
  match m with
  | [] => [kv]
  | (k, v) :: rest =>
      if kv.1 < k then kv :: (k, v) :: rest
      else if kv.1 = k then (kv.1, kv.2) :: rest
      else (k, v) :: btInsert rest kv

/-- Deserializing a map: visit the document's entries in order and
insert each into the `BTreeMap`. -/
def hintsFromEntries (l : List (Nat × α)) : List (Nat × α) :=
  l.foldl btInsert []

/-- The seven updates the outer chain receives, in source order: API
version, the three finalized entry-point chains, the finalized builtins
chain, the truncated keccak, the finalized bytecode chain. -/
def outerUpdates (ped : Felt → Felt → Felt) (tk : Felt) (e1 e2 e3 b d : HashChain) :
    HashChain :=
  ((((((HashChain.empty.update ped API_VERSION).update ped
      (e1.finalize ped)).update ped (e2.finalize ped)).update ped
      (e3.finalize ped)).update ped (b.finalize ped)).update ped tk).update ped
      (d.finalize ped)

/-- The truncated keccak value folded into the outer chain. -/
def keccakFelt (keccak : String → List Nat) (cd : ContractDefinition) : Felt :=
  truncated_keccak (keccak (serContractDefinition ", " ": " (clearDebugInfo cd)))

/-- A small valid contract definition used as a concrete input. -/
def sampleProgram : Program :=
  { attributes := []
  , builtins := ["output"]
  , data := ["0x1", "0x2"]
  , debug_info := none
  , hints := []
  , identifiers := Json.null
  , main_scope := "main"
  , prime := "0x800000000000011000000000000000000000000000000000000000000000001"
  , reference_manager := Json.null }

/-- A small valid contract definition: one external entry point, no
L1 handlers (the kind is absent), an empty constructor list. -/
def sampleCd : ContractDefinition :=
  { abi := Json.null
  , program := sampleProgram
  , entry_points_by_type := fun k =>
      match k with
      | .External => some [⟨"0x1", "0x2"⟩]
      | .L1Handler => none
      | .Constructor => some [] }

/-- A contract definition whose external selector lacks the 0x prefix. -/
def badCd : ContractDefinition :=
  { abi := Json.null
  , program := sampleProgram
  , entry_points_by_type := fun k =>
      match k with
      | .External => some [⟨"123", "0x2"⟩]
      | .L1Handler => none
      | .Constructor => some [] }

/-- The contract definition with the parsed hints map replaced. -/
def withHints (cd : ContractDefinition) (h : List (Nat × List Json)) :
    ContractDefinition :=
  { cd with program := { cd.program with hints := h } }

/-- The contract definition with the parsed debug_info field replaced. -/
def withDebug (cd : ContractDefinition) (d : Option String) : ContractDefinition :=
  { cd with program := { cd.program with debug_info := d } }

/-- The contract definition with the attributes field replaced. -/
def withAttributes (cd : ContractDefinition) (a : List Json) : ContractDefinition :=
  { cd with program := { cd.program with attributes := a } }

/-- Deserializing the attributes field: `#[serde(default)]` yields the
empty sequence when the key is missing. -/
def parseAttributes (a : Option (List Json)) : List Json :=
  a.getD []

/-! ## Supporting lemmas -/

theorem beValue_foldl (bs : List Nat) (acc : Nat) :
    bs.foldl (fun a b => a * 256 + b) acc = acc * 256 ^ bs.length + beValue bs := by
  induction bs generalizing acc with
  | nil => simp [beValue]
  | cons b rest ih =>
      simp only [List.foldl_cons, List.length_cons, beValue]
      rw [ih (acc * 256 + b), ih (0 * 256 + b)]
      ring

theorem beValue_cons (b : Nat) (bs : List Nat) :
    beValue (b :: bs) = b * 256 ^ bs.length + beValue bs := by
  show List.foldl _ _ _ = _
  rw [List.foldl_cons, beValue_foldl]
  ring

theorem beValue_lt (bs : List Nat) (h : ∀ b ∈ bs, b < 256) :
    beValue bs < 256 ^ bs.length := by
  induction bs with
  | nil => simp [beValue]
  | cons b rest ih =>
      rw [beValue_cons]
      have hb : b < 256 := h b (List.mem_cons_self _ _)
      have hrest : beValue rest < 256 ^ rest.length :=
        ih (fun x hx => h x (List.mem_cons_of_mem _ hx))
      have : b * 256 ^ rest.length + beValue rest <
          (b + 1) * 256 ^ rest.length := by nlinarith
      calc b * 256 ^ rest.length + beValue rest
          < (b + 1) * 256 ^ rest.length := this
        _ ≤ 256 * 256 ^ rest.length := by
            exact Nat.mul_le_mul_right _ hb
        _ = 256 ^ (rest.length + 1) := by ring
        _ = 256 ^ (b :: rest).length := by simp

theorem beValue_usizeBeBytes (n : Nat) (h : n < 2 ^ 64) :
    beValue (usizeBeBytes n) = n := by
  have : usizeBeBytes n =
      [n / 256 ^ 7 % 256, n / 256 ^ 6 % 256, n / 256 ^ 5 % 256, n / 256 ^ 4 % 256,
       n / 256 ^ 3 % 256, n / 256 ^ 2 % 256, n / 256 ^ 1 % 256, n / 256 ^ 0 % 256] := by
    simp [usizeBeBytes, List.range_succ]
  rw [this]
  show List.foldl _ _ _ = _
  simp only [List.foldl_cons, List.foldl_nil]
  norm_num
  omega

theorem two_pow_64_lt_PRIME : 2 ^ 64 < PRIME := by
  unfold PRIME
  norm_num

/-- Finalizing a chain whose count fits a usize yields
`pedersen(hash, count)`. -/
theorem HashChain.finalize_mk (ped : Felt → Felt → Felt) (h n : Nat)
    (hn : n < 2 ^ 64) :
    (HashChain.mk h n).finalize ped = ped h n := by
  unfold HashChain.finalize from_be_slice from_be_bytes
  have hv : beValue (usizeBeBytes n) = n := beValue_usizeBeBytes n hn
  simp only [hv]
  rw [if_pos (lt_trans hn two_pow_64_lt_PRIME)]

theorem withContext_ok (ctx : String) (a : α) :
    withContext ctx (Except.ok a) = Except.ok a := rfl

theorem withContext_error (ctx e : String) :
    withContext ctx (Except.error e : Except String α) =
      Except.error (ctx ++ ": " ++ e) := rfl

theorem exBind_ok (a : α) (f : α → Except String β) :
    (Except.ok a >>= f) = f a := rfl

theorem exBind_error (e : String) (f : α → Except String β) :
    ((Except.error e : Except String α) >>= f) = Except.error e := rfl

theorem chainFold_nil (ped : Felt → Felt → Felt) (f : α → Except String Felt)
    (init : HashChain) : chainFold ped f init [] = Except.ok init := rfl

theorem chainFold_cons (ped : Felt → Felt → Felt) (f : α → Except String Felt)
    (init : HashChain) (x : α) (l : List α) :
    chainFold ped f init (x :: l) =
      match f x with
      | .ok v => chainFold ped f (init.update ped v) l
      | .error e => .error e := by
  unfold chainFold
  cases hfx : f x <;>
    simp [List.foldlM, hfx, Except.map, exBind_ok, exBind_error]

/-- A successful fold counts exactly the folded items. -/
theorem chainFold_ok_count (ped : Felt → Felt → Felt) (f : α → Except String Felt)
    (l : List α) (init hc : HashChain)
    (h : chainFold ped f init l = Except.ok hc) :
    hc.count = init.count + l.length := by
  induction l generalizing init with
  | nil => rw [chainFold_nil] at h; cases h; simp
  | cons x rest ih =>
      rw [chainFold_cons] at h
      cases hfx : f x with
      | ok v =>
          rw [hfx] at h
          have := ih (init.update ped v) h
          simp [HashChain.update] at this
          simp [this]
          omega
      | error e => rw [hfx] at h; cases h

/-- A fold that fails names a genuinely failing item. -/
theorem chainFold_error_mem (ped : Felt → Felt → Felt) (f : α → Except String Felt)
    (l : List α) (init : HashChain) (e : String)
    (h : chainFold ped f init l = Except.error e) :
    ∃ x ∈ l, f x = Except.error e := by
  induction l generalizing init with
  | nil => rw [chainFold_nil] at h; cases h
  | cons x rest ih =>
      rw [chainFold_cons] at h
      cases hfx : f x with
      | ok v =>
          rw [hfx] at h
          obtain ⟨y, hy, hye⟩ := ih (init.update ped v) h
          exact ⟨y, List.mem_cons_of_mem _ hy, hye⟩
      | error e2 =>
          rw [hfx] at h
          cases h
          exact ⟨x, List.mem_cons_self _ _, hfx⟩

/-- If some item fails, the fold fails with the error of such an item. -/
theorem chainFold_fails (ped : Felt → Felt → Felt) (f : α → Except String Felt)
    (l : List α) (init : HashChain)
    (h : ∃ x ∈ l, ∃ e, f x = Except.error e) :
    ∃ x ∈ l, ∃ e, f x = Except.error e ∧
      chainFold ped f init l = Except.error e := by
  induction l generalizing init with
  | nil => obtain ⟨x, hx, _⟩ := h; cases hx
  | cons y rest ih =>
      cases hfy : f y with
      | error e =>
          refine ⟨y, List.mem_cons_self _ _, e, hfy, ?_⟩
          rw [chainFold_cons, hfy]
      | ok v =>
          obtain ⟨x, hx, e, hxe⟩ := h
          rcases List.mem_cons.mp hx with hxy | hxr
          · subst hxy; rw [hfy] at hxe; cases hxe
          · obtain ⟨z, hz, e2, hze, hfold⟩ := ih (init.update ped v) ⟨x, hxr, e, hxe⟩
            refine ⟨z, List.mem_cons_of_mem _ hz, e2, hze, ?_⟩
            rw [chainFold_cons, hfy]
            exact hfold

/-- If no item fails, the fold succeeds. -/
theorem chainFold_ok_of_no_fail (ped : Felt → Felt → Felt) (f : α → Except String Felt)
    (l : List α) (init : HashChain)
    (h : ¬ ∃ x ∈ l, ∃ e, f x = Except.error e) :
    ∃ hc, chainFold ped f init l = Except.ok hc := by
  cases hres : chainFold ped f init l with
  | ok hc => exact ⟨hc, rfl⟩
  | error e =>
      obtain ⟨x, hx, hxe⟩ := chainFold_error_mem ped f l init e hres
      exact absurd ⟨x, hx, e, hxe⟩ h

theorem epItemsFrom_length (eps : List SelectorAndOffset) (i : Nat) :
    (epItemsFrom i eps).length = 2 * eps.length := by
  induction eps generalizing i with
  | nil => rfl
  | cons e rest ih => simp [epItemsFrom, ih]; omega

theorem epItems_length (eps : List SelectorAndOffset) :
    (epItems eps).length = 2 * eps.length :=
  epItemsFrom_length eps 0

theorem entryPointsOf_clearDebug (cd : ContractDefinition) (k : EntryPointType) :
    entryPointsOf (clearDebugInfo cd) k = entryPointsOf cd k := rfl

theorem builtins_clearDebug (cd : ContractDefinition) :
    (clearDebugInfo cd).program.builtins = cd.program.builtins := rfl

theorem data_clearDebug (cd : ContractDefinition) :
    (clearDebugInfo cd).program.data = cd.program.data := rfl

/-! ## The hints BTreeMap: insertion, ordering, permutation invariance -/

theorem btInsert_nil (kv : Nat × α) : btInsert [] kv = [kv] := rfl

theorem btInsert_cons_lt (p : Nat × α) (rest : List (Nat × α)) (kv : Nat × α)
    (h : kv.1 < p.1) : btInsert (p :: rest) kv = kv :: p :: rest := by
  obtain ⟨k, v⟩ := p
  simp only [btInsert]
  rw [if_pos h]

theorem btInsert_cons_eq (p : Nat × α) (rest : List (Nat × α)) (kv : Nat × α)
    (h : kv.1 = p.1) : btInsert (p :: rest) kv = kv :: rest := by
  obtain ⟨k, v⟩ := p
  simp only [btInsert]
  rw [if_neg (by omega), if_pos h]

theorem btInsert_cons_gt (p : Nat × α) (rest : List (Nat × α)) (kv : Nat × α)
    (h : p.1 < kv.1) : btInsert (p :: rest) kv = p :: btInsert rest kv := by
  obtain ⟨k, v⟩ := p
  simp only [btInsert]
  rw [if_neg (by omega), if_neg (by omega)]

theorem btInsert_mem (m : List (Nat × α)) (kv x : Nat × α)
    (h : x ∈ btInsert m kv) : x = kv ∨ x ∈ m := by
  induction m with
  | nil => rw [btInsert_nil] at h; simp at h; exact Or.inl h
  | cons hd rest ih =>
      rcases Nat.lt_trichotomy kv.1 hd.1 with h1 | h1 | h1
      · rw [btInsert_cons_lt hd rest kv h1] at h
        rcases List.mem_cons.mp h with h2 | h2
        · exact Or.inl h2
        · exact Or.inr h2
      · rw [btInsert_cons_eq hd rest kv h1] at h
        rcases List.mem_cons.mp h with h2 | h2
        · exact Or.inl h2
        · exact Or.inr (List.mem_cons_of_mem _ h2)
      · rw [btInsert_cons_gt hd rest kv h1] at h
        rcases List.mem_cons.mp h with h2 | h2
        · exact Or.inr (by simp [h2])
        · rcases ih h2 with h3 | h3
          · exact Or.inl h3
          · exact Or.inr (List.mem_cons_of_mem _ h3)

/-- Insertion keeps the entry list strictly sorted by key. -/
theorem btInsert_sorted (m : List (Nat × α)) (kv : Nat × α)
    (h : m.Pairwise (fun a b => a.1 < b.1)) :
    (btInsert m kv).Pairwise (fun a b => a.1 < b.1) := by
  induction m with
  | nil => simp [btInsert]
  | cons hd rest ih =>
      rw [List.pairwise_cons] at h
      obtain ⟨hhd, hrest⟩ := h
      unfold btInsert
      by_cases h1 : kv.1 < hd.1
      · simp only [if_pos h1]
        rw [List.pairwise_cons]
        refine ⟨?_, List.pairwise_cons.mpr ⟨hhd, hrest⟩⟩
        intro y hy
        rcases List.mem_cons.mp hy with hyh | hyr
        · simp [hyh]; exact h1
        · exact lt_trans h1 (hhd y hyr)
      · by_cases h2 : kv.1 = hd.1
        · simp only [if_neg h1, if_pos h2]
          rw [List.pairwise_cons]
          refine ⟨?_, hrest⟩
          intro y hy
          rw [h2]
          exact hhd y hy
        · simp only [if_neg h1, if_neg h2]
          rw [List.pairwise_cons]
          refine ⟨?_, ih hrest⟩
          intro y hy
          rcases btInsert_mem rest kv y hy with hyk | hyr
          · subst hyk; omega
          · exact hhd y hyr

/-- Insertions with distinct keys commute. -/
theorem btInsert_comm (m : List (Nat × α)) (a b : Nat × α) (hab : a.1 ≠ b.1) :
    btInsert (btInsert m a) b = btInsert (btInsert m b) a := by
  induction m with
  | nil =>
      rcases Nat.lt_or_gt_of_ne hab with h | h
      · rw [btInsert_nil, btInsert_nil, btInsert_cons_gt a [] b h,
          btInsert_cons_lt b [] a h, btInsert_nil]
      · rw [btInsert_nil, btInsert_nil, btInsert_cons_lt a [] b h,
          btInsert_cons_gt b [] a h, btInsert_nil]
  | cons hd rest ih =>
      rcases Nat.lt_trichotomy a.1 hd.1 with ha | ha | ha
      · rcases Nat.lt_trichotomy b.1 hd.1 with hb | hb | hb
        · rcases Nat.lt_or_gt_of_ne hab with h | h
          · rw [btInsert_cons_lt hd rest a ha,
              btInsert_cons_gt a (hd :: rest) b h,
              btInsert_cons_lt hd rest b hb,
              btInsert_cons_lt b (hd :: rest) a h]
          · rw [btInsert_cons_lt hd rest a ha,
              btInsert_cons_lt a (hd :: rest) b h,
              btInsert_cons_lt hd rest b hb,
              btInsert_cons_gt b (hd :: rest) a h,
              btInsert_cons_lt hd rest a ha]
        · rw [btInsert_cons_lt hd rest a ha,
            btInsert_cons_gt a (hd :: rest) b (by omega),
            btInsert_cons_eq hd rest b hb,
            btInsert_cons_lt b rest a (by omega)]
        · rw [btInsert_cons_lt hd rest a ha,
            btInsert_cons_gt a (hd :: rest) b (by omega),
            btInsert_cons_gt hd rest b hb,
            btInsert_cons_lt hd (btInsert rest b) a ha]
      · rcases Nat.lt_trichotomy b.1 hd.1 with hb | hb | hb
        · rw [btInsert_cons_eq hd rest a ha,
            btInsert_cons_lt a rest b (by omega),
            btInsert_cons_lt hd rest b hb,
            btInsert_cons_gt b (hd :: rest) a (by omega),
            btInsert_cons_eq hd rest a ha]
        · exact absurd (ha.trans hb.symm) hab
        · rw [btInsert_cons_eq hd rest a ha,
            btInsert_cons_gt a rest b (by omega),
            btInsert_cons_gt hd rest b hb,
            btInsert_cons_eq hd (btInsert rest b) a ha]
      · rcases Nat.lt_trichotomy b.1 hd.1 with hb | hb | hb
        · rw [btInsert_cons_gt hd rest a ha,
            btInsert_cons_lt hd (btInsert rest a) b hb,
            btInsert_cons_lt hd rest b hb,
            btInsert_cons_gt b (hd :: rest) a (by omega),
            btInsert_cons_gt hd rest a ha]
        · rw [btInsert_cons_gt hd rest a ha,
            btInsert_cons_eq hd (btInsert rest a) b hb,
            btInsert_cons_eq hd rest b hb,
            btInsert_cons_gt b rest a (by omega)]
        · rw [btInsert_cons_gt hd rest a ha,
            btInsert_cons_gt hd (btInsert rest a) b hb,
            btInsert_cons_gt hd rest b hb,
            btInsert_cons_gt hd (btInsert rest b) a ha,
            ih]

/-- The final map of a permuted entry list with distinct keys. -/
theorem hintsFromEntries_perm (l1 l2 : List (Nat × α))
    (hnd : (l1.map Prod.fst).Nodup) (hp : l1.Perm l2) :
    hintsFromEntries l1 = hintsFromEntries l2 := by
  unfold hintsFromEntries
  refine hp.foldl_eq' ?_ []
  intro x hx y hy z
  by_cases hxy : x = y
  · rw [hxy]
  · have : x.1 ≠ y.1 := by
      intro h
      exact hxy (List.inj_on_of_nodup_map hnd hx hy h)
    exact btInsert_comm z x y this

/-- The deserialized hints map is strictly sorted by key. -/
theorem hintsFromEntries_sorted (l : List (Nat × α)) :
    (hintsFromEntries l).Pairwise (fun a b => a.1 < b.1) := by
  unfold hintsFromEntries
  have : ∀ m : List (Nat × α), m.Pairwise (fun a b => a.1 < b.1) →
      (l.foldl btInsert m).Pairwise (fun a b => a.1 < b.1) := by
    induction l with
    | nil => intro m hm; exact hm
    | cons kv rest ih =>
        intro m hm
        exact ih (btInsert m kv) (btInsert_sorted m kv hm)
  exact this [] (by simp)

/-! ## Outer-chain structure -/

theorem HashChain.finalize_count (ped : Felt → Felt → Felt) (hc : HashChain)
    (h : hc.count < 2 ^ 64) : hc.finalize ped = ped hc.hash hc.count := by
  cases hc
  exact HashChain.finalize_mk ped _ _ h

theorem foldl_update_count (ped : Felt → Felt → Felt) (vs : List Felt)
    (hc0 : HashChain) :
    (vs.foldl (fun hc w => hc.update ped w) hc0).count = hc0.count + vs.length := by
  induction vs generalizing hc0 with
  | nil => simp
  | cons v rest ih =>
      rw [List.foldl_cons, ih]
      simp [HashChain.update]
      omega

theorem exPure (a : α) : (pure a : Except String α) = Except.ok a := rfl

theorem outerChain_ok (ped : Felt → Felt → Felt) (keccak : String → List Nat)
    (cd : ContractDefinition) (e1 e2 e3 b d : HashChain)
    (h1 : epChain ped .External (entryPointsOf cd .External) = .ok e1)
    (h2 : epChain ped .L1Handler (entryPointsOf cd .L1Handler) = .ok e2)
    (h3 : epChain ped .Constructor (entryPointsOf cd .Constructor) = .ok e3)
    (hb : builtinsChain ped cd.program.builtins = .ok b)
    (hd : dataChain ped cd.program.data = .ok d) :
    outerChain ped keccak cd = .ok (outerUpdates ped (keccakFelt keccak cd) e1 e2 e3 b d) := by
  simp only [outerChain, entryPointsOf_clearDebug, builtins_clearDebug, data_clearDebug,
    h1, h2, h3, hb, hd, withContext_ok, exBind_ok, exPure, outerUpdates, keccakFelt]

theorem outerChain_ok_inv (ped : Felt → Felt → Felt) (keccak : String → List Nat)
    (cd : ContractDefinition) (hc : HashChain)
    (hok : outerChain ped keccak cd = .ok hc) :
    ∃ e1 e2 e3 b d,
      epChain ped .External (entryPointsOf cd .External) = .ok e1 ∧
      epChain ped .L1Handler (entryPointsOf cd .L1Handler) = .ok e2 ∧
      epChain ped .Constructor (entryPointsOf cd .Constructor) = .ok e3 ∧
      builtinsChain ped cd.program.builtins = .ok b ∧
      dataChain ped cd.program.data = .ok d ∧
      hc = outerUpdates ped (keccakFelt keccak cd) e1 e2 e3 b d := by
  unfold outerChain at hok
  simp only [entryPointsOf_clearDebug, builtins_clearDebug, data_clearDebug] at hok
  cases hE : epChain ped .External (entryPointsOf cd .External) with
  | error e => rw [hE] at hok; simp [withContext_error, exBind_error] at hok
  | ok e1 =>
  rw [hE] at hok
  simp only [withContext_ok, exBind_ok] at hok
  cases hL : epChain ped .L1Handler (entryPointsOf cd .L1Handler) with
  | error e => rw [hL] at hok; simp [withContext_error, exBind_error] at hok
  | ok e2 =>
  rw [hL] at hok
  simp only [withContext_ok, exBind_ok] at hok
  cases hC : epChain ped .Constructor (entryPointsOf cd .Constructor) with
  | error e => rw [hC] at hok; simp [withContext_error, exBind_error] at hok
  | ok e3 =>
  rw [hC] at hok
  simp only [withContext_ok, exBind_ok] at hok
  cases hB : builtinsChain ped cd.program.builtins with
  | error e => rw [hB] at hok; simp [withContext_error, exBind_error] at hok
  | ok b =>
  rw [hB] at hok
  simp only [withContext_ok, exBind_ok] at hok
  cases hD : dataChain ped cd.program.data with
  | error e => rw [hD] at hok; simp [withContext_error, exBind_error] at hok
  | ok d =>
  rw [hD] at hok
  simp only [withContext_ok, exBind_ok, exPure, Except.ok.injEq] at hok
  exact ⟨e1, e2, e3, b, d, rfl, rfl, rfl, rfl, rfl, hok.symm⟩

theorem outerUpdates_count (ped : Felt → Felt → Felt) (tk : Felt)
    (e1 e2 e3 b d : HashChain) :
    (outerUpdates ped tk e1 e2 e3 b d).count = 7 := rfl

/-! ## Shared sample input -/

/-! ## Claims -/

/-- C1 (counterexample): with a pedersen instance that separates the
claimed count from the real one, the outer chain of `sampleCd` has
count 7 at finalization, not 5, and the final hash is
`ped(acc, 7)`, not `ped(acc, 5)`. -/
theorem C1_counterexample :
    ((outerChain (fun a b => a * 2 ^ 200 + b + 1) (fun _ => List.replicate 32 0)
        sampleCd).toOption.map HashChain.count ≠ some 5)
    ∧ (outerChain (fun a b => a * 2 ^ 200 + b + 1) (fun _ => List.replicate 32 0)
        sampleCd).toOption.map HashChain.count = some 7
    ∧ (computeContractHash0 (fun a b => a * 2 ^ 200 + b + 1) (fun _ => List.replicate 32 0)
        sampleCd).toOption ≠
      (outerChain (fun a b => a * 2 ^ 200 + b + 1) (fun _ => List.replicate 32 0)
        sampleCd).toOption.map (fun hc => hc.hash * 2 ^ 200 + 5 + 1) := by
  refine ⟨by decide, by decide, by decide⟩

/-- C1 (amended): for every valid contract definition the final hash is
`pedersen(outer.accumulator, outer.count)` with the outer count at
finalization equal to 7: one API-version update, three entry-point
chains, the builtins chain, the truncated keccak and the bytecode
chain. -/
theorem C1_outer_chain_count (ped : Felt → Felt → Felt) (keccak : String → List Nat)
    (cd : ContractDefinition) (hc : HashChain)
    (hok : outerChain ped keccak cd = .ok hc) :
    hc.count = 7 ∧ computeContractHash0 ped keccak cd = .ok (ped hc.hash 7) := by
  obtain ⟨e1, e2, e3, b, d, h1, h2, h3, hb, hd, hceq⟩ :=
    outerChain_ok_inv ped keccak cd hc hok
  have hcount : hc.count = 7 := by rw [hceq]; rfl
  refine ⟨hcount, ?_⟩
  unfold computeContractHash0
  rw [hok]
  have : hc.finalize ped = ped hc.hash hc.count :=
    HashChain.finalize_count ped hc (by rw [hcount]; norm_num)
  rw [Except.map, this, hcount]

/-- C1 (witness): the amended theorem applied to the sample contract
with a concrete pedersen instance. -/
theorem C1_witness :
    (HashChain.mk 0 7).count = 7 ∧
      computeContractHash0 (fun _ _ => 0) (fun _ => List.replicate 32 0) sampleCd =
        .ok ((fun _ _ => (0 : Felt)) (0 : Felt) (7 : Felt)) :=
  C1_outer_chain_count (fun _ _ => 0) (fun _ => List.replicate 32 0) sampleCd
    (HashChain.mk 0 7) rfl

/-- C2: the outer chain receives the three finalized entry-point chains
in the fixed order External, L1Handler, Constructor; each inner chain
folds selector then offset of every entry in declared order, so a
successful inner chain has count `2n` and finalizes to
`pedersen(accumulator, 2n)`; an absent kind is treated as the empty
sequence and contributes `pedersen(0, 0)` instead of being skipped. -/
theorem C2_entry_point_chains (ped : Felt → Felt → Felt) (keccak : String → List Nat)
    (cd : ContractDefinition) :
    (∀ (k : EntryPointType) (eps : List SelectorAndOffset) (hc : HashChain),
        epChain ped k eps = .ok hc → hc.count = 2 * eps.length)
    ∧ (∀ (k : EntryPointType) (eps : List SelectorAndOffset) (hc : HashChain),
        epChain ped k eps = .ok hc → eps.length < 2 ^ 63 →
          hc.finalize ped = ped hc.hash (2 * eps.length))
    ∧ (∀ k : EntryPointType, cd.entry_points_by_type k = none →
        entryPointsOf cd k = []
        ∧ epChain ped k (entryPointsOf cd k) = .ok HashChain.empty
        ∧ HashChain.empty.finalize ped = ped 0 0)
    ∧ (∀ e1 e2 e3 b d : HashChain,
        epChain ped .External (entryPointsOf cd .External) = .ok e1 →
        epChain ped .L1Handler (entryPointsOf cd .L1Handler) = .ok e2 →
        epChain ped .Constructor (entryPointsOf cd .Constructor) = .ok e3 →
        builtinsChain ped cd.program.builtins = .ok b →
        dataChain ped cd.program.data = .ok d →
        outerChain ped keccak cd =
          .ok (outerUpdates ped (keccakFelt keccak cd) e1 e2 e3 b d)) := by
  have hcount : ∀ (k : EntryPointType) (eps : List SelectorAndOffset) (hc : HashChain),
      epChain ped k eps = .ok hc → hc.count = 2 * eps.length := by
    intro k eps hc h
    have := chainFold_ok_count ped _ (epItems eps) HashChain.empty hc h
    rw [epItems_length] at this
    simpa [HashChain.empty] using this
  refine ⟨hcount, ?_, ?_, ?_⟩
  · intro k eps hc h hlen
    have hc2 := hcount k eps hc h
    rw [← hc2]
    exact HashChain.finalize_count ped hc (by rw [hc2]; omega)
  · intro k hk
    have hempty : entryPointsOf cd k = [] := by
      unfold entryPointsOf
      rw [hk]
      rfl
    refine ⟨hempty, ?_, HashChain.finalize_mk ped 0 0 (by norm_num)⟩
    rw [hempty]
    rfl
  · intro e1 e2 e3 b d h1 h2 h3 hb hd
    exact outerChain_ok ped keccak cd e1 e2 e3 b d h1 h2 h3 hb hd

/-- C2 (witness): the theorem applied to the sample contract; its
External list of one entry yields an inner chain of count 2, and the
absent L1Handler kind yields the empty list and the empty chain. -/
theorem C2_witness :
    epChain (fun _ _ => 0) .External [SelectorAndOffset.mk "0x1" "0x2"] =
        .ok (HashChain.mk 0 2)
    ∧ (HashChain.mk 0 2).count = 2 * [SelectorAndOffset.mk "0x1" "0x2"].length
    ∧ sampleCd.entry_points_by_type .L1Handler = none
    ∧ entryPointsOf sampleCd .L1Handler = []
    ∧ epChain (fun _ _ => 0) .L1Handler (entryPointsOf sampleCd .L1Handler) =
        .ok HashChain.empty := by
  have h := C2_entry_point_chains (fun _ _ => 0) (fun _ => List.replicate 32 0) sampleCd
  refine ⟨rfl, h.1 .External [SelectorAndOffset.mk "0x1" "0x2"] (HashChain.mk 0 2) rfl,
    rfl, (h.2.2.1 .L1Handler rfl).1, (h.2.2.1 .L1Handler rfl).2.1⟩

/-- C3: the HashChain state machine: a fresh chain finalizes to
`pedersen(0, 0)`; update maps `(h, n)` to `(pedersen(h, v), n + 1)`;
finalize on `(h, n)` returns `pedersen(h, n)` with the count embedded
big-endian; the count equals the number of updates since
construction. -/
theorem C3_hashchain_state_machine (ped : Felt → Felt → Felt) (h n v : Nat)
    (vs : List Felt) (hn : n < 2 ^ 64) :
    HashChain.empty.finalize ped = ped 0 0
    ∧ (HashChain.mk h n).update ped v = HashChain.mk (ped h v) (n + 1)
    ∧ (HashChain.mk h n).finalize ped = ped h n
    ∧ (vs.foldl (fun hc w => hc.update ped w) HashChain.empty).count = vs.length := by
  refine ⟨HashChain.finalize_mk ped 0 0 (by norm_num), rfl,
    HashChain.finalize_mk ped h n hn, ?_⟩
  rw [foldl_update_count]
  simp [HashChain.empty]

/-- C3 (witness): the state machine at a concrete chain state and a
concrete pedersen instance. -/
theorem C3_witness :
    (3 : Nat) < 2 ^ 64
    ∧ (HashChain.empty.finalize (fun a b => a + 2 * b + 1) =
          (fun a b => a + 2 * b + 1) 0 0
        ∧ (HashChain.mk 5 3).update (fun a b => a + 2 * b + 1) 4 =
            HashChain.mk ((fun a b => a + 2 * b + 1) 5 4) (3 + 1)
        ∧ (HashChain.mk 5 3).finalize (fun a b => a + 2 * b + 1) =
            (fun a b => a + 2 * b + 1) 5 3
        ∧ (([9, 8] : List Felt).foldl
            (fun hc w => hc.update (fun a b => a + 2 * b + 1) w)
            HashChain.empty).count = ([9, 8] : List Felt).length) :=
  ⟨by norm_num, C3_hashchain_state_machine (fun a b => a + 2 * b + 1) 5 3 4 [9, 8]
    (by norm_num)⟩

/-- C4: masking the top byte of a 32-byte digest with `0x03` gives a
big-endian value strictly below `2^250 < PRIME`, so the field embedding
in `truncated_keccak` cannot fail. -/
theorem C4_truncated_keccak_safe (plain : List Nat) (hlen : plain.length = 32)
    (hbytes : ∀ b ∈ plain, b < 256) :
    beValue (maskFirst plain) < 2 ^ 250
    ∧ 2 ^ 250 < PRIME
    ∧ from_be_bytes (maskFirst plain) = some (truncated_keccak plain) := by
  obtain ⟨b0, rest, rfl⟩ : ∃ b0 rest, plain = b0 :: rest := by
    cases plain with
    | nil => simp at hlen
    | cons x xs => exact ⟨x, xs, rfl⟩
  have hrl : rest.length = 31 := by simpa using hlen
  have hb0 : b0 &&& 3 ≤ 3 := Nat.and_le_right
  have hrest : beValue rest < 256 ^ 31 := by
    have := beValue_lt rest (fun x hx => hbytes x (List.mem_cons_of_mem _ hx))
    rwa [hrl] at this
  have hmask : beValue (maskFirst (b0 :: rest)) = (b0 &&& 3) * 256 ^ 31 + beValue rest := by
    show beValue ((b0 &&& 3) :: rest) = _
    rw [beValue_cons, hrl]
  have hpow : (4 : Nat) * 256 ^ 31 = 2 ^ 250 := by norm_num
  have hlt : beValue (maskFirst (b0 :: rest)) < 2 ^ 250 := by
    rw [hmask, ← hpow]
    calc (b0 &&& 3) * 256 ^ 31 + beValue rest
        ≤ 3 * 256 ^ 31 + beValue rest := by
          exact Nat.add_le_add_right (Nat.mul_le_mul_right _ hb0) _
      _ < 3 * 256 ^ 31 + 256 ^ 31 := by omega
      _ = 4 * 256 ^ 31 := by ring
  have hp : 2 ^ 250 < PRIME := by unfold PRIME; norm_num
  have hbe : from_be_bytes (maskFirst (b0 :: rest)) =
      some (beValue (maskFirst (b0 :: rest))) := by
    unfold from_be_bytes
    rw [if_pos (lt_trans hlt hp)]
  refine ⟨hlt, hp, ?_⟩
  rw [hbe]
  unfold truncated_keccak
  rw [hbe]

/-- C4 (witness): the all-ones digest. -/
theorem C4_witness :
    (List.replicate 32 255).length = 32
    ∧ (∀ b ∈ List.replicate 32 255, b < 256)
    ∧ (beValue (maskFirst (List.replicate 32 255)) < 2 ^ 250
        ∧ 2 ^ 250 < PRIME
        ∧ from_be_bytes (maskFirst (List.replicate 32 255)) =
            some (truncated_keccak (List.replicate 32 255))) :=
  ⟨by decide, by decide,
    C4_truncated_keccak_safe (List.replicate 32 255) (by decide) (by decide)⟩

/-- C5: the hints keys are emitted as decimal strings in the ascending
numeric order of the deserialized BTreeMap, and permuting the hints
entries of the input (with distinct keys) leaves the hash unchanged. -/
theorem C5_hints_numeric_order (ped : Felt → Felt → Felt)
    (keccak : String → List Nat) (cd : ContractDefinition) (c n : String)
    (l1 l2 : List (Nat × List Json))
    (hnd : (l1.map Prod.fst).Nodup) (hp : l1.Perm l2) :
    computeContractHash0 ped keccak (withHints cd (hintsFromEntries l1)) =
      computeContractHash0 ped keccak (withHints cd (hintsFromEntries l2))
    ∧ (hintsFromEntries l1).Pairwise (fun a b => a.1 < b.1)
    ∧ serHints c n (hintsFromEntries l1) =
        "\x7b" ++ String.intercalate c ((hintsFromEntries l1).map
          (fun kv => serString (toString kv.1) ++ n ++ serJson c n (.arr kv.2))) ++
          "\x7d" := by
  have heq := hintsFromEntries_perm l1 l2 hnd hp
  exact ⟨by rw [heq], hintsFromEntries_sorted l1, rfl⟩

/-- C5 (witness): the document orders `10, 1, 2` and `1, 2, 10` yield the
same map and the same hash; the map lists keys `1, 2, 10` in numeric
order, which is not the lexicographic order of their decimal strings. -/
theorem C5_witness :
    (([((10 : Nat), ([] : List Json)), (1, []), (2, [])].map Prod.fst).Nodup)
    ∧ List.Perm [((10 : Nat), ([] : List Json)), (1, []), (2, [])]
        [(1, []), (2, []), (10, [])]
    ∧ computeContractHash0 (fun _ _ => 0) (fun s => [s.length % 256])
        (withHints sampleCd (hintsFromEntries [(10, []), (1, []), (2, [])])) =
      computeContractHash0 (fun _ _ => 0) (fun s => [s.length % 256])
        (withHints sampleCd (hintsFromEntries [(1, []), (2, []), (10, [])]))
    ∧ (hintsFromEntries [((10 : Nat), ([] : List Json)), (1, []), (2, [])]).map
        Prod.fst = [1, 2, 10]
    ∧ serHints ", " ": " (hintsFromEntries [((10 : Nat), ([] : List Json)), (1, []), (2, [])]) =
        "\x7b\"1\": [], \"2\": [], \"10\": []\x7d" := by
  have h := C5_hints_numeric_order (fun _ _ => 0) (fun s => [s.length % 256])
    sampleCd ", " ": " [(10, []), (1, []), (2, [])] [(1, []), (2, []), (10, [])]
    (by simp) (@List.perm_append_comm (Nat × List Json) [(10, [])] [(1, []), (2, [])])
  exact ⟨by simp, @List.perm_append_comm (Nat × List Json) [(10, [])] [(1, []), (2, [])],
    h.1, rfl, rfl⟩

/-- C6: debug_info is forced to null before serialization, so the hash
does not depend on the input's debug_info value at all: removing an
explicit null or substituting an arbitrary subtree changes nothing. -/
theorem C6_debug_info_forced_null (ped : Felt → Felt → Felt)
    (keccak : String → List Nat) (cd : ContractDefinition) (d1 d2 : Option String) :
    (clearDebugInfo (withDebug cd d1)).program.debug_info = none
    ∧ computeContractHash0 ped keccak (withDebug cd d1) =
        computeContractHash0 ped keccak (withDebug cd d2) :=
  ⟨rfl, rfl⟩

/-- C7: a missing attributes key defaults to the empty sequence, an
explicit empty list hashes identically, and an empty attributes list is
omitted from the serialized entries instead of being emitted as `[]`. -/
theorem C7_attributes_empty_omitted (ped : Felt → Felt → Felt)
    (keccak : String → List Nat) (cd : ContractDefinition) (c n : String)
    (p : Program) :
    parseAttributes none = ([] : List Json)
    ∧ parseAttributes (some []) = ([] : List Json)
    ∧ computeContractHash0 ped keccak (withAttributes cd (parseAttributes none)) =
        computeContractHash0 ped keccak (withAttributes cd (parseAttributes (some [])))
    ∧ programEntries c n { p with attributes := [] } = programEntriesTail c n p :=
  ⟨rfl, rfl, rfl, rfl⟩

/-! ## Error propagation through the outer chain -/

theorem epChain_def (ped : Felt → Felt → Felt) (k : EntryPointType)
    (eps : List SelectorAndOffset) :
    epChain ped k eps =
      chainFold ped (fun it => parseEntryPointField k it.1 it.2.1 it.2.2)
        HashChain.empty (epItems eps) := rfl

theorem parseEntryPointField_error_shape (k : EntryPointType) (i : Nat)
    (field value e : String)
    (h : parseEntryPointField k i field value = Except.error e) :
    e = epMissingMsg k i field ∨ e = epInvalidMsg k i field := by
  unfold parseEntryPointField at h
  cases hs : strip0x value with
  | none => rw [hs] at h; cases h; exact Or.inl rfl
  | some hx =>
      simp only [hs] at h
      cases hf : from_hex_str hx with
      | some v => simp only [hf] at h; cases h
      | none => simp only [hf, Except.error.injEq] at h; exact Or.inr h.symm

theorem parseBuiltin_error_shape (i : Nat) (s e : String)
    (h : parseBuiltin i s = Except.error e) : e = builtinMsg i := by
  unfold parseBuiltin at h
  cases hf : from_be_slice (strBytes s) with
  | some v => rw [hf] at h; cases h
  | none => rw [hf] at h; cases h; rfl

theorem parseBytecode_error_shape (i : Nat) (s e : String)
    (h : parseBytecode i s = Except.error e) :
    from_hex_str s = none ∧ e = bytecodeMsg i := by
  unfold parseBytecode at h
  cases hf : from_hex_str s with
  | some v => rw [hf] at h; cases h
  | none => rw [hf] at h; cases h; exact ⟨rfl, rfl⟩

theorem outerChain_ext_error (ped : Felt → Felt → Felt) (keccak : String → List Nat)
    (cd : ContractDefinition) (e : String)
    (hE : epChain ped .External (entryPointsOf cd .External) = .error e) :
    outerChain ped keccak cd = .error (epContext ++ ": " ++ e) := by
  simp only [outerChain, entryPointsOf_clearDebug, builtins_clearDebug, data_clearDebug,
    hE, withContext_error, exBind_error]

theorem outerChain_l1_error (ped : Felt → Felt → Felt) (keccak : String → List Nat)
    (cd : ContractDefinition) (e1 : HashChain) (e : String)
    (h1 : epChain ped .External (entryPointsOf cd .External) = .ok e1)
    (hL : epChain ped .L1Handler (entryPointsOf cd .L1Handler) = .error e) :
    outerChain ped keccak cd = .error (epContext ++ ": " ++ e) := by
  simp only [outerChain, entryPointsOf_clearDebug, builtins_clearDebug, data_clearDebug,
    h1, hL, withContext_ok, withContext_error, exBind_ok, exBind_error]

theorem outerChain_ctor_error (ped : Felt → Felt → Felt) (keccak : String → List Nat)
    (cd : ContractDefinition) (e1 e2 : HashChain) (e : String)
    (h1 : epChain ped .External (entryPointsOf cd .External) = .ok e1)
    (h2 : epChain ped .L1Handler (entryPointsOf cd .L1Handler) = .ok e2)
    (hC : epChain ped .Constructor (entryPointsOf cd .Constructor) = .error e) :
    outerChain ped keccak cd = .error (epContext ++ ": " ++ e) := by
  simp only [outerChain, entryPointsOf_clearDebug, builtins_clearDebug, data_clearDebug,
    h1, h2, hC, withContext_ok, withContext_error, exBind_ok, exBind_error]

theorem outerChain_builtins_error (ped : Felt → Felt → Felt) (keccak : String → List Nat)
    (cd : ContractDefinition) (e1 e2 e3 : HashChain) (e : String)
    (h1 : epChain ped .External (entryPointsOf cd .External) = .ok e1)
    (h2 : epChain ped .L1Handler (entryPointsOf cd .L1Handler) = .ok e2)
    (h3 : epChain ped .Constructor (entryPointsOf cd .Constructor) = .ok e3)
    (hB : builtinsChain ped cd.program.builtins = .error e) :
    outerChain ped keccak cd = .error (builtinsContext ++ ": " ++ e) := by
  simp only [outerChain, entryPointsOf_clearDebug, builtins_clearDebug, data_clearDebug,
    h1, h2, h3, hB, withContext_ok, withContext_error, exBind_ok, exBind_error]

theorem computeContractHash0_error (ped : Felt → Felt → Felt)
    (keccak : String → List Nat) (cd : ContractDefinition) (m : String)
    (h : outerChain ped keccak cd = .error m) :
    computeContractHash0 ped keccak cd = .error m := by
  unfold computeContractHash0
  rw [h]
  rfl

/-- C8: if any selector or offset is missing its 0x prefix or fails hex
decoding, or any builtin does not embed in the field, the computation
returns an error whose context string names the offending list kind and
index, and no hash is produced. -/
theorem C8_error_reporting (ped : Felt → Felt → Felt) (keccak : String → List Nat)
    (cd : ContractDefinition)
    (hfail :
      (∃ k ∈ [EntryPointType.External, EntryPointType.L1Handler,
          EntryPointType.Constructor],
        ∃ it ∈ epItems (entryPointsOf cd k), ∃ e,
          parseEntryPointField k it.1 it.2.1 it.2.2 = Except.error e)
      ∨ (∃ it ∈ cd.program.builtins.enum, ∃ e,
          parseBuiltin it.1 it.2 = Except.error e)) :
    (∀ h, computeContractHash0 ped keccak cd ≠ Except.ok h)
    ∧ ∃ m, computeContractHash0 ped keccak cd = Except.error m ∧
      ((∃ k, ∃ it ∈ epItems (entryPointsOf cd k), ∃ e,
          parseEntryPointField k it.1 it.2.1 it.2.2 = Except.error e ∧
          m = epContext ++ ": " ++ e ∧
          (e = epMissingMsg k it.1 it.2.1 ∨ e = epInvalidMsg k it.1 it.2.1))
       ∨ (∃ it ∈ cd.program.builtins.enum,
            parseBuiltin it.1 it.2 = Except.error (builtinMsg it.1) ∧
            m = builtinsContext ++ ": " ++ builtinMsg it.1)) := by
  have finish : ∀ m : String, computeContractHash0 ped keccak cd = Except.error m →
      (∀ h, computeContractHash0 ped keccak cd ≠ Except.ok h) := by
    intro m hm h hok
    rw [hm] at hok
    cases hok
  by_cases hExt : ∃ it ∈ epItems (entryPointsOf cd .External), ∃ e,
      parseEntryPointField .External it.1 it.2.1 it.2.2 = Except.error e
  · obtain ⟨it, hit, e, he, hchain⟩ := chainFold_fails ped _ _ HashChain.empty hExt
    rw [← epChain_def] at hchain
    have herr := computeContractHash0_error ped keccak cd _
      (outerChain_ext_error ped keccak cd e hchain)
    exact ⟨finish _ herr, _, herr,
      Or.inl ⟨.External, it, hit, e, he, rfl,
        parseEntryPointField_error_shape _ _ _ _ _ he⟩⟩
  · obtain ⟨e1, h1⟩ := chainFold_ok_of_no_fail ped _ (epItems (entryPointsOf cd .External))
      HashChain.empty hExt
    rw [← epChain_def] at h1
    by_cases hL1 : ∃ it ∈ epItems (entryPointsOf cd .L1Handler), ∃ e,
        parseEntryPointField .L1Handler it.1 it.2.1 it.2.2 = Except.error e
    · obtain ⟨it, hit, e, he, hchain⟩ := chainFold_fails ped _ _ HashChain.empty hL1
      rw [← epChain_def] at hchain
      have herr := computeContractHash0_error ped keccak cd _
        (outerChain_l1_error ped keccak cd e1 e h1 hchain)
      exact ⟨finish _ herr, _, herr,
        Or.inl ⟨.L1Handler, it, hit, e, he, rfl,
          parseEntryPointField_error_shape _ _ _ _ _ he⟩⟩
    · obtain ⟨e2, h2⟩ := chainFold_ok_of_no_fail ped _ (epItems (entryPointsOf cd .L1Handler))
        HashChain.empty hL1
      rw [← epChain_def] at h2
      by_cases hCt : ∃ it ∈ epItems (entryPointsOf cd .Constructor), ∃ e,
          parseEntryPointField .Constructor it.1 it.2.1 it.2.2 = Except.error e
      · obtain ⟨it, hit, e, he, hchain⟩ := chainFold_fails ped _ _ HashChain.empty hCt
        rw [← epChain_def] at hchain
        have herr := computeContractHash0_error ped keccak cd _
          (outerChain_ctor_error ped keccak cd e1 e2 e h1 h2 hchain)
        exact ⟨finish _ herr, _, herr,
          Or.inl ⟨.Constructor, it, hit, e, he, rfl,
            parseEntryPointField_error_shape _ _ _ _ _ he⟩⟩
      · obtain ⟨e3, h3⟩ := chainFold_ok_of_no_fail ped _
          (epItems (entryPointsOf cd .Constructor)) HashChain.empty hCt
        rw [← epChain_def] at h3
        have hBfail : ∃ it ∈ cd.program.builtins.enum, ∃ e,
            parseBuiltin it.1 it.2 = Except.error e := by
          rcases hfail with ⟨k, hk, hfk⟩ | hb
          · exfalso
            simp only [List.mem_cons, List.not_mem_nil, or_false] at hk
            rcases hk with rfl | rfl | rfl
            · exact hExt hfk
            · exact hL1 hfk
            · exact hCt hfk
          · exact hb
        obtain ⟨it, hit, e, he, hchain⟩ := chainFold_fails ped _ _ HashChain.empty hBfail
        have hchain2 : builtinsChain ped cd.program.builtins = .error e := hchain
        have hshape := parseBuiltin_error_shape it.1 it.2 e he
        have herr := computeContractHash0_error ped keccak cd _
          (outerChain_builtins_error ped keccak cd e1 e2 e3 e h1 h2 h3 hchain2)
        subst hshape
        exact ⟨finish _ herr, _, herr, Or.inr ⟨it, hit, he, rfl⟩⟩

/-- C8 (witness): a contract whose only external selector lacks the 0x
prefix is rejected with the External index-0 selector message. -/
theorem C8_witness :
    ((∃ k ∈ [EntryPointType.External, EntryPointType.L1Handler,
        EntryPointType.Constructor],
      ∃ it ∈ epItems (entryPointsOf badCd k), ∃ e,
        parseEntryPointField k it.1 it.2.1 it.2.2 = Except.error e)
      ∨ (∃ it ∈ badCd.program.builtins.enum, ∃ e,
          parseBuiltin it.1 it.2 = Except.error e))
    ∧ ((∀ h, computeContractHash0 (fun _ _ => 0) (fun _ => List.replicate 32 0) badCd ≠
          Except.ok h)
      ∧ ∃ m, computeContractHash0 (fun _ _ => 0) (fun _ => List.replicate 32 0) badCd =
            Except.error m ∧
        ((∃ k, ∃ it ∈ epItems (entryPointsOf badCd k), ∃ e,
            parseEntryPointField k it.1 it.2.1 it.2.2 = Except.error e ∧
            m = epContext ++ ": " ++ e ∧
            (e = epMissingMsg k it.1 it.2.1 ∨ e = epInvalidMsg k it.1 it.2.1))
         ∨ (∃ it ∈ badCd.program.builtins.enum,
              parseBuiltin it.1 it.2 = Except.error (builtinMsg it.1) ∧
              m = builtinsContext ++ ": " ++ builtinMsg it.1))) := by
  have hf : (∃ k ∈ [EntryPointType.External, EntryPointType.L1Handler,
        EntryPointType.Constructor],
      ∃ it ∈ epItems (entryPointsOf badCd k), ∃ e,
        parseEntryPointField k it.1 it.2.1 it.2.2 = Except.error e)
      ∨ (∃ it ∈ badCd.program.builtins.enum, ∃ e,
          parseBuiltin it.1 it.2 = Except.error e) :=
    Or.inl ⟨.External, by decide,
      (0, "selector", "123"), by decide, epMissingMsg .External 0 "selector", rfl⟩
  exact ⟨hf, C8_error_reporting (fun _ _ => 0) (fun _ => List.replicate 32 0) badCd hf⟩

/-- C9 (counterexample): `extract_abi_code_hash` returns
`program.data` reserialized with the default compact formatter, which
differs from the Python-compatible form on the sample contract's
two-element data list. -/
theorem C9_counterexample :
    (extract_abi_code_hash (fun _ _ => 0) (fun _ => List.replicate 32 0)
        sampleCd).toOption.map (fun t => t.2.1) = some "[\"0x1\",\"0x2\"]"
    ∧ serStringList ", " sampleCd.program.data = "[\"0x1\", \"0x2\"]"
    ∧ ("[\"0x1\",\"0x2\"]" : String) ≠ "[\"0x1\", \"0x2\"]" := by
  exact ⟨by decide, by decide, by decide⟩

/-- C9 (amended): `extract_abi_code_hash` returns the abi and the
`program.data` values reserialized with serde_json's default compact
formatter (not the Python-compatible one), together with the hash of
the same parsed definition; it errors exactly when the hash computation
errors. -/
theorem C9_extract_abi_code_hash (ped : Felt → Felt → Felt)
    (keccak : String → List Nat) (cd : ContractDefinition) :
    extract_abi_code_hash ped keccak cd =
      (withContext "Compute contract hash" (computeContractHash0 ped keccak cd)).map
        (fun h => (serJson "," ":" cd.abi, serStringList "," cd.program.data, h)) := by
  unfold extract_abi_code_hash
  cases h : withContext "Compute contract hash" (computeContractHash0 ped keccak cd) with
  | ok v => rfl
  | error e => rfl

/-- C10: `program.data` words are parsed with `from_hex_str` directly,
so a valid hex word without the 0x prefix is accepted; a data word is
rejected exactly when its hex parse fails or its value does not fit the
field. -/
theorem C10_data_no_prefix_check (ped : Felt → Felt → Felt) :
    (∀ (i : Nat) (s : String) (v : Nat), strip0x s = none →
        hexValue s.data = some v → v < PRIME → parseBytecode i s = Except.ok v)
    ∧ (∀ (i : Nat) (s e : String), parseBytecode i s = Except.error e →
        from_hex_str s = none ∧ e = bytecodeMsg i)
    ∧ (∀ (data : List String) (e : String), dataChain ped data = Except.error e →
        ∃ it ∈ data.enum, from_hex_str it.2 = none ∧ e = bytecodeMsg it.1) := by
  refine ⟨?_, parseBytecode_error_shape, ?_⟩
  · intro i s v hstrip hhex hlt
    unfold parseBytecode from_hex_str
    rw [hstrip]
    simp only [hhex]
    rw [if_pos hlt]
  · intro data e h
    obtain ⟨it, hit, he⟩ := chainFold_error_mem ped _ data.enum HashChain.empty e h
    obtain ⟨hnone, hmsg⟩ := parseBytecode_error_shape it.1 it.2 e he
    exact ⟨it, hit, hnone, hmsg⟩

/-- C10 (witness): the prefix-free hex word `abc` is accepted as the
bytecode value `0xabc = 2748`. -/
theorem C10_witness :
    strip0x "abc" = none
    ∧ hexValue "abc".data = some 2748
    ∧ (2748 : Nat) < PRIME
    ∧ parseBytecode 0 "abc" = Except.ok 2748 :=
  ⟨by decide, by decide, by decide,
    (C10_data_no_prefix_check (fun _ _ => 0)).1 0 "abc" 2748 (by decide) (by decide)
      (by decide)⟩

end ContractHash
